import Mathlib

/-!
Verification of the `golog` structured-log record formatter (package `loggo`).

The development shallowly embeds the handler in `golog.go`: strings and byte
buffers are modelled as `List Nat` (one entry per rune/byte; the claims'
operative alphabet is ASCII), machine integers as `Nat`/`Int`, the output sink
as a function from the written bytes to an optional write error, and the
external standard-library routines the formatter calls (`strconv.Quote`,
`strconv.Unquote`, `encoding/json` string escaping, `time.Time.AppendFormat`
on the three recognized layouts, `filepath.Base`) as Lean functions translated
from their Go sources.
-/

namespace Golog

/-- Runes of a Lean string literal, used to write concrete byte strings. -/
def gostr (s : String) : List Nat := s.data.map Char.toNat

/-- Fuel-driven decimal digit loop: digits of `n` (most significant first),
empty for `n = 0`.  Fuel `≥ n` suffices since the iterate divides by 10. -/
def natDecAux : Nat → Nat → List Nat
  | 0, _ => []
  | fuel + 1, n => if n = 0 then [] else natDecAux fuel (n / 10) ++ [48 + n % 10]

/-- Decimal text of a natural number, as produced by Go's `strconv` for a
nonnegative integer. -/
def natDec (n : Nat) : List Nat := if n = 0 then [48] else natDecAux (n + 1) n

/-- Go `strconv.AppendInt(..., 10)`: optional minus sign, then decimal digits. -/
def intDec (x : Int) : List Nat :=
  if x < 0 then 45 :: natDec x.natAbs else natDec x.natAbs

/-- Lowercase hexadecimal digit, as in Go's `lowerhex = "0123456789abcdef"`. -/
def lowerHexDigit (x : Nat) : Nat := if x < 10 then 48 + x else 87 + x

/-! ### strconv.Quote

`escRune` is one step of Go `strconv.quoteWith` (`appendEscapedRune` with
`ASCIIonly = false`, `graphicOnly = false`, quote character `"`), restricted to
the ASCII alphabet, where `unicode.IsPrint` is exactly `0x20 ≤ r ≤ 0x7E`:
quote and backslash are backslash-escaped, printable runes pass through, the
seven named control escapes apply, and every other rune below `0x80` becomes
`\xHH`. -/

def escRune (c : Nat) : List Nat :=
  if c = 34 ∨ c = 92 then [92, c]
  else if 32 ≤ c ∧ c ≤ 126 then [c]
  else if c = 7 then [92, 97]
  else if c = 8 then [92, 98]
  else if c = 12 then [92, 102]
  else if c = 10 then [92, 110]
  else if c = 13 then [92, 114]
  else if c = 9 then [92, 116]
  else if c = 11 then [92, 118]
  else [92, 120, lowerHexDigit (c / 16), lowerHexDigit (c % 16)]

/-- Go `strconv.Quote`: a double quote, the escaped runes, a double quote. -/
def quoteGo (s : List Nat) : List Nat := 34 :: (s.flatMap escRune ++ [34])

/-- Go `strconv.unhex`. -/
def unhex (c : Nat) : Option Nat :=
  if 48 ≤ c ∧ c ≤ 57 then some (c - 48)
  else if 97 ≤ c ∧ c ≤ 102 then some (c - 97 + 10)
  else if 65 ≤ c ∧ c ≤ 70 then some (c - 65 + 10)
  else none

/-- Go `utf8.ValidRune`. -/
def validRune (v : Nat) : Bool := v < 0xD800 || (0xDFFF < v && v ≤ 0x10FFFF)

/-- Go `strconv.unquoteChar` with quote character `"`: decode one rune (raw or
escaped) from the front of the list, returning it with the remaining input.
Runes `≥ 0x80` stand for already-decoded UTF-8 sequences, so the
`utf8.DecodeRuneInString` branch returns the rune itself. -/
def unquoteChar : List Nat → Option (Nat × List Nat)
  | [] => none
  | c :: rest =>
    if c = 34 then none
    else if c ≠ 92 then some (c, rest)
    else match rest with
      | [] => none
      | e :: rest2 =>
        if e = 97 then some (7, rest2)
        else if e = 98 then some (8, rest2)
        else if e = 102 then some (12, rest2)
        else if e = 110 then some (10, rest2)
        else if e = 114 then some (13, rest2)
        else if e = 116 then some (9, rest2)
        else if e = 118 then some (11, rest2)
        else if e = 120 then
          match rest2 with
          | h1 :: h2 :: rest3 =>
            match unhex h1, unhex h2 with
            | some a, some b => some (16 * a + b, rest3)
            | _, _ => none
          | _ => none
        else if e = 117 then
          match rest2 with
          | h1 :: h2 :: h3 :: h4 :: rest3 =>
            match unhex h1, unhex h2, unhex h3, unhex h4 with
            | some a, some b, some c2, some d =>
              let v := ((a * 16 + b) * 16 + c2) * 16 + d
              if validRune v then some (v, rest3) else none
            | _, _, _, _ => none
          | _ => none
        else if e = 85 then
          match rest2 with
          | h1 :: h2 :: h3 :: h4 :: h5 :: h6 :: h7 :: h8 :: rest3 =>
            match unhex h1, unhex h2, unhex h3, unhex h4,
                  unhex h5, unhex h6, unhex h7, unhex h8 with
            | some a, some b, some c2, some d, some a2, some b2, some c3, some d2 =>
              let v := ((((((a * 16 + b) * 16 + c2) * 16 + d) * 16 + a2) * 16 + b2)
                        * 16 + c3) * 16 + d2
              if validRune v then some (v, rest3) else none
            | _, _, _, _, _, _, _, _ => none
          | _ => none
        else if 48 ≤ e ∧ e ≤ 55 then
          match rest2 with
          | d1 :: d2 :: rest3 =>
            if 48 ≤ d1 ∧ d1 ≤ 55 ∧ 48 ≤ d2 ∧ d2 ≤ 55 then
              let v := (e - 48) * 64 + (d1 - 48) * 8 + (d2 - 48)
              if v > 255 then none else some (v, rest3)
            else none
          | _ => none
        else if e = 92 then some (92, rest2)
        else if e = 34 then some (34, rest2)
        else none

/-- Iterated `unquoteChar` over the interior of a quoted literal.  Each step
consumes at least one rune, so fuel equal to the input length suffices. -/
def unquoteLoop : Nat → List Nat → Option (List Nat)
  | _, [] => some []
  | 0, _ :: _ => none
  | fuel + 1, c :: l =>
    match unquoteChar (c :: l) with
    | none => none
    | some (v, rest) =>
      match unquoteLoop fuel rest with
      | none => none
      | some out => some (v :: out)

/-- Go `strconv.Unquote` on a double-quoted literal: both ends must be `"`,
the interior must not contain a raw newline, and the interior is decoded by
`unquoteChar`.  (The single-quote and backquote branches of Go's `Unquote`
are not taken by double-quoted inputs and are rejected here.) -/
def unquoteGo (l : List Nat) : Option (List Nat) :=
  if l.length < 2 then none
  else if l.head? = some 34 ∧ l.getLast? = some 34 then
    let interior := (l.drop 1).dropLast
    if 10 ∈ interior then none
    else unquoteLoop interior.length interior
  else none

/-! ### Round-trip lemmas for strconv.Quote / Unquote -/

theorem lowerHexDigit_bounds {x : Nat} (hx : x < 16) :
    48 ≤ lowerHexDigit x ∧ lowerHexDigit x ≤ 102 := by
  unfold lowerHexDigit; split <;> omega

theorem escRune_printable : ∀ c < 128, ∀ b ∈ escRune c, 32 ≤ b ∧ b ≤ 126 := by
  decide

theorem escRune_ne_nil (c : Nat) : escRune c ≠ [] := by
  unfold escRune
  repeat' split
  all_goals simp

theorem unhex_lowerHexDigit : ∀ x < 16, unhex (lowerHexDigit x) = some x := by
  decide

theorem unquoteChar_escRune {c : Nat} (hc : c < 128) (rest : List Nat) :
    unquoteChar (escRune c ++ rest) = some (c, rest) := by
  have hdiv : c / 16 < 16 := by omega
  have hmod : c % 16 < 16 := by omega
  have hx1 := unhex_lowerHexDigit (c / 16) hdiv
  have hx2 := unhex_lowerHexDigit (c % 16) hmod
  have hcdm : 16 * (c / 16) + c % 16 = c := by omega
  unfold escRune
  by_cases h1 : c = 34 ∨ c = 92
  · simp only [h1, if_true]
    rcases h1 with rfl | rfl <;> simp [unquoteChar]
  · simp only [h1, if_false]
    by_cases h2 : 32 ≤ c ∧ c ≤ 126
    · have hne34 : c ≠ 34 := fun h => h1 (Or.inl h)
      have hne92 : c ≠ 92 := fun h => h1 (Or.inr h)
      simp [h2, unquoteChar, hne34, hne92]
    · simp only [h2, if_false]
      by_cases h7 : c = 7
      · subst h7; simp [unquoteChar]
      · simp only [h7, if_false]
        by_cases h8 : c = 8
        · subst h8; simp [unquoteChar]
        · simp only [h8, if_false]
          by_cases h12 : c = 12
          · subst h12; simp [unquoteChar]
          · simp only [h12, if_false]
            by_cases h10 : c = 10
            · subst h10; simp [unquoteChar]
            · simp only [h10, if_false]
              by_cases h13 : c = 13
              · subst h13; simp [unquoteChar]
              · simp only [h13, if_false]
                by_cases h9 : c = 9
                · subst h9; simp [unquoteChar]
                · simp only [h9, if_false]
                  by_cases h11 : c = 11
                  · subst h11; simp [unquoteChar]
                  · simp only [h11, if_false]
                    simp [unquoteChar, hx1, hx2, hcdm]

theorem unquoteLoop_cons (f : Nat) (l : List Nat) (hl : l ≠ []) :
    unquoteLoop (f + 1) l =
      match unquoteChar l with
      | none => none
      | some (v, rest) =>
        match unquoteLoop f rest with
        | none => none
        | some out => some (v :: out) := by
  cases l with
  | nil => exact absurd rfl hl
  | cons c t => rfl

theorem unquoteLoop_flatMap (s : List Nat) (hs : ∀ c ∈ s, c < 128) :
    ∀ fuel, (s.flatMap escRune).length ≤ fuel →
      unquoteLoop fuel (s.flatMap escRune) = some s := by
  induction s with
  | nil => intro fuel _; simp [unquoteLoop]
  | cons c s' ih =>
    intro fuel hfuel
    have hc : c < 128 := hs c (by simp)
    have hs' : ∀ x ∈ s', x < 128 := fun x hx => hs x (by simp [hx])
    rw [List.flatMap_cons] at hfuel ⊢
    have hne : escRune c ++ s'.flatMap escRune ≠ [] := by
      intro h
      exact escRune_ne_nil c (List.append_eq_nil.mp h).1
    have hpos : 0 < (escRune c ++ s'.flatMap escRune).length :=
      List.length_pos.mpr hne
    rcases fuel with _ | f
    · omega
    · rw [unquoteLoop_cons f _ hne, unquoteChar_escRune hc]
      have hf' : (s'.flatMap escRune).length ≤ f := by
        have h1 : 1 ≤ (escRune c).length :=
          List.length_pos.mpr (escRune_ne_nil c)
        simp only [List.length_append] at hfuel
        omega
      simp [ih hs' f hf']

theorem flatMap_escRune_printable {s : List Nat} (hs : ∀ c ∈ s, c < 128) :
    ∀ b ∈ s.flatMap escRune, 32 ≤ b ∧ b ≤ 126 := by
  intro b hb
  rw [List.mem_flatMap] at hb
  obtain ⟨c, hc, hbc⟩ := hb
  exact escRune_printable c (hs c hc) b hbc

/-- Round trip: `strconv.Unquote (strconv.Quote s) = s` (ASCII alphabet). -/
theorem unquoteGo_quoteGo (s : List Nat) (hs : ∀ c ∈ s, c < 128) :
    unquoteGo (quoteGo s) = some s := by
  have hprint := flatMap_escRune_printable hs
  have hq : quoteGo s = (34 :: s.flatMap escRune) ++ [34] := by
    simp [quoteGo]
  unfold unquoteGo
  rw [hq]
  have hlen : ¬ ((34 :: s.flatMap escRune) ++ [34]).length < 2 := by
    simp
  rw [if_neg hlen]
  have hhead : ((34 :: s.flatMap escRune) ++ [34]).head? = some 34 := by
    simp
  have hlast : ((34 :: s.flatMap escRune) ++ [34]).getLast? = some 34 := by
    rw [List.getLast?_concat]
  rw [if_pos ⟨hhead, hlast⟩]
  have hint : (((34 :: s.flatMap escRune) ++ [34]).drop 1).dropLast
      = s.flatMap escRune := by
    simp only [List.cons_append, List.drop_succ_cons, List.drop_zero]
    exact List.dropLast_concat ..
  rw [hint]
  have hnl : ¬ (10 ∈ s.flatMap escRune) := by
    intro hmem
    have := hprint 10 hmem
    omega
  rw [if_neg hnl]
  exact unquoteLoop_flatMap s hs _ le_rfl

/-! ### Time model

`GoTime` carries what the formatter reads from a `time.Time`: the wall-clock
components returned by `t.Date()`, `t.Clock()` and `t.Nanosecond()`, and the
zone offset in seconds east of UTC used by the `Z07:00` layout chunk. -/

structure GoTime where
  year : Int
  month : Nat
  day : Nat
  hour : Nat
  minute : Nat
  sec : Nat
  nsec : Nat
  tzOffset : Int

/-- Calendar-range side conditions on the components (what `time.Time`'s
accessors guarantee). -/
def GoTime.Valid (t : GoTime) : Prop :=
  1 ≤ t.month ∧ t.month ≤ 12 ∧ 1 ≤ t.day ∧ t.day ≤ 31 ∧ t.hour ≤ 23 ∧
    t.minute ≤ 59 ∧ t.sec ≤ 59 ∧ t.nsec < 1000000000

instance (t : GoTime) : Decidable t.Valid := by
  unfold GoTime.Valid; infer_instance

/-- Source `formatTimeDefault` (golog.go): hand-written encoder for the
`"2006-01-02 15:04:05.000"` layout.  The year goes through
`strconv.AppendInt` (no zero padding); month, day, hour, minute, second get a
single conditional `'0'`; the millisecond field gets up to two conditional
`'0'`s before `strconv.AppendInt` of `nsec / 1000000`. -/
def formatTimeDefault (t : GoTime) : List Nat :=
  let ms := t.nsec / 1000000
  intDec t.year ++ [45]
  ++ (if t.month < 10 then [48] else []) ++ natDec t.month ++ [45]
  ++ (if t.day < 10 then [48] else []) ++ natDec t.day ++ [32]
  ++ (if t.hour < 10 then [48] else []) ++ natDec t.hour ++ [58]
  ++ (if t.minute < 10 then [48] else []) ++ natDec t.minute ++ [58]
  ++ (if t.sec < 10 then [48] else []) ++ natDec t.sec ++ [46]
  ++ (if ms < 100 then [48] ++ (if ms < 10 then [48] else []) else [])
  ++ natDec ms

/-- Zero padding to `width` digits: Go `time.appendInt`'s general path on a
nonnegative value (its width-2/width-4 fast paths emit the same bytes). -/
def padTo (width n : Nat) : List Nat :=
  List.replicate (width - (natDec n).length) 48 ++ natDec n

/-- Go `time.appendInt(b, x, width)`: minus sign for negatives, then the
digits zero-padded to `width`. -/
def timeAppendInt (x : Int) (width : Nat) : List Nat :=
  if x < 0 then 45 :: padTo width x.natAbs else padTo width x.natAbs

/-- The `w` least-significant decimal digits of `n`, most significant first
(the fixed-width digit buffer built by Go `time.appendNano`). -/
def fixedDigits (w n : Nat) : List Nat :=
  (List.range w).map (fun i => 48 + n / 10 ^ (w - 1 - i) % 10)

/-- Go `time.appendNano` for a `".000…"` chunk (`stdFracSecond0`, `prec`
digits): a dot, then the first `prec` digits of the 9-digit nanosecond
buffer. -/
def fracSec0 (prec nsec : Nat) : List Nat := 46 :: (fixedDigits 9 nsec).take prec

def dropTrailingZeros (l : List Nat) : List Nat :=
  (l.reverse.dropWhile (fun b => b = 48)).reverse

/-- Go `time.appendNano` for a `".999…"` chunk (`stdFracSecond9`): trailing
zeros trimmed, the dot omitted when nothing remains. -/
def fracSec9 (prec nsec : Nat) : List Nat :=
  let ds := dropTrailingZeros ((fixedDigits 9 nsec).take prec)
  if ds = [] then [] else 46 :: ds

/-- Go `t.AppendFormat(buf, "2006-01-02 15:04:05.000")`, unfolded chunk by
chunk per `time.Time.Format`'s layout parser: `stdLongYear` `"-"`
`stdZeroMonth` `"-"` `stdZeroDay` `" "` `stdHour` `":"` `stdZeroMinute` `":"`
`stdZeroSecond` `stdFracSecond0` with 3 digits.  Every numeric chunk is
`time.appendInt` with the chunk's width. -/
def appendFormatDefaultLayout (t : GoTime) : List Nat :=
  timeAppendInt t.year 4 ++ [45] ++ padTo 2 t.month ++ [45] ++ padTo 2 t.day
  ++ [32] ++ padTo 2 t.hour ++ [58] ++ padTo 2 t.minute ++ [58]
  ++ padTo 2 t.sec ++ fracSec0 3 t.nsec

/-- The `Z07:00` chunk (`stdISO8601ColonTZ`): `Z` for offset zero, otherwise
sign, two-digit hours, colon, two-digit minutes of the offset. -/
def tzISO8601Colon (off : Int) : List Nat :=
  if off = 0 then [90]
  else
    let zoneMin := off.natAbs / 60
    (if off < 0 then [45] else [43])
      ++ padTo 2 (zoneMin / 60) ++ [58] ++ padTo 2 (zoneMin % 60)

/-- Go `t.AppendFormat(buf, time.RFC3339)` (`"2006-01-02T15:04:05Z07:00"`),
unfolded chunk by chunk. -/
def appendFormatRFC3339Layout (t : GoTime) : List Nat :=
  timeAppendInt t.year 4 ++ [45] ++ padTo 2 t.month ++ [45] ++ padTo 2 t.day
  ++ [84] ++ padTo 2 t.hour ++ [58] ++ padTo 2 t.minute ++ [58]
  ++ padTo 2 t.sec ++ tzISO8601Colon t.tzOffset

/-- Go `t.AppendFormat(buf, time.RFC3339Nano)`
(`"2006-01-02T15:04:05.999999999Z07:00"`), unfolded chunk by chunk. -/
def appendFormatRFC3339NanoLayout (t : GoTime) : List Nat :=
  timeAppendInt t.year 4 ++ [45] ++ padTo 2 t.month ++ [45] ++ padTo 2 t.day
  ++ [84] ++ padTo 2 t.hour ++ [58] ++ padTo 2 t.minute ++ [58]
  ++ padTo 2 t.sec ++ fracSec9 9 t.nsec ++ tzISO8601Colon t.tzOffset

/-- Source `formatTimeRFC3339`: delegates to `t.AppendFormat(buf, RFC3339)`. -/
def formatTimeRFC3339 (t : GoTime) : List Nat := appendFormatRFC3339Layout t

/-- Source `formatTimeRFC3339Nano`: delegates to
`t.AppendFormat(buf, RFC3339Nano)`. -/
def formatTimeRFC3339Nano (t : GoTime) : List Nat := appendFormatRFC3339NanoLayout t

def defaultTimeFormat : String := "2006-01-02 15:04:05.000"

def rfc3339Layout : String := "2006-01-02T15:04:05Z07:00"

def rfc3339NanoLayout : String := "2006-01-02T15:04:05.999999999Z07:00"

/-- The generic layout-driven encoder `t.AppendFormat(buf, format)`, at the
layouts the claims concern.  Other layout strings are outside the model's
scope (no claim or theorem depends on them) and map to the empty output. -/
def appendFormatGo (format : String) (t : GoTime) : List Nat :=
  if format = defaultTimeFormat then appendFormatDefaultLayout t
  else if format = rfc3339Layout then appendFormatRFC3339Layout t
  else if format = rfc3339NanoLayout then appendFormatRFC3339NanoLayout t
  else []

/-- Source `makeTimeFormatter`: the three recognized layouts map to their
specialized encoders; anything else falls back to the generic
`t.AppendFormat(buf, format)` closure. -/
def makeTimeFormatter (format : String) : GoTime → List Nat :=
  if format = defaultTimeFormat then formatTimeDefault
  else if format = rfc3339Layout then formatTimeRFC3339
  else if format = rfc3339NanoLayout then formatTimeRFC3339Nano
  else appendFormatGo format

/-! ### Value model

`GoAny` classifies a dynamic Go value by the branch of `formatValue` that
handles it, which is determined by the value's runtime type:

* `anil` — a nil interface value;
* `withLogValuer yield fmtCap` — the type implements `slog.LogValuer`;
  `yield` is `LogValue().Any()`.  `fmtCap` records whether the same type also
  implements `LogFormatter` and with which result — `formatValue`'s
  `slog.LogValuer` check runs first, so this capability is never consulted;
* `str`, `i64`, `u64`, `boolean` — the concrete types of the type switch
  (all signed widths print via `strconv.AppendInt`, unsigned via
  `AppendUint`; the float cases of the switch are not modelled, no claim
  concerns floating point);
* `withFormatter r` — the type implements `LogFormatter` (and not
  `slog.LogValuer`); `r` is the result of `FormatForLog()`;
* `ptr p` — `reflect.Kind` is `Pointer` and none of the earlier branches
  matched (by Go method-set promotion a pointer whose pointee type carries a
  logging capability would itself satisfy the earlier interface checks, so
  such pointees cannot reach this branch);
* `timeOpaque`, `levelOpaque` — a `time.Time` or `slog.Level`, which the
  orchestrator can receive back from a rewrite callback; in `formatValue`
  both fall through to `json.Marshal` (each implements `json.Marshaler`);
* `jsonOther r` — anything else; `r` is the result of `json.Marshal`. -/

inductive GoAny where
  | anil
  | str (s : List Nat)
  | i64 (n : Int)
  | u64 (n : Nat)
  | boolean (b : Bool)
  | withLogValuer (yield : GoAny) (fmtCap : Option (Except (List Nat) (List Nat)))
  | withFormatter (r : Except (List Nat) (List Nat))
  | ptr (p : Option GoAny)
  | timeOpaque (t : GoTime)
  | levelOpaque (l : Int)
  | jsonOther (r : Except (List Nat) (List Nat))

/-- Go `%+d`: an explicit sign, then the decimal digits. -/
def signedDec (v : Int) : List Nat :=
  if v < 0 then 45 :: natDec v.natAbs else 43 :: natDec v.natAbs

/-- Go `slog.Level.String()`: the nearest named level below, plus a signed
offset when nonzero. -/
def levelString (l : Int) : List Nat :=
  if l < 0 then gostr "DEBUG" ++ (if l - (-4) = 0 then [] else signedDec (l - (-4)))
  else if l < 4 then gostr "INFO" ++ (if l = 0 then [] else signedDec l)
  else if l < 8 then gostr "WARN" ++ (if l - 4 = 0 then [] else signedDec (l - 4))
  else gostr "ERROR" ++ (if l - 8 = 0 then [] else signedDec (l - 8))

/-- Go `json` string escaping (`encodeState.string` with `escapeHTML = true`)
on the ASCII alphabet: quote and backslash are backslash-escaped; newline,
carriage return and tab get named escapes; the remaining control bytes and
the HTML-sensitive `<`, `>`, `&` become `\u00HH`; everything else — including
DEL (0x7F) — passes through raw. -/
def jsonEscByte (b : Nat) : List Nat :=
  if b = 34 ∨ b = 92 then [92, b]
  else if b = 10 then [92, 110]
  else if b = 13 then [92, 114]
  else if b = 9 then [92, 116]
  else if b < 32 ∨ b = 60 ∨ b = 62 ∨ b = 38 then
    [92, 117, 48, 48, lowerHexDigit (b / 16), lowerHexDigit (b % 16)]
  else [b]

def jsonQuote (s : List Nat) : List Nat := 34 :: (s.flatMap jsonEscByte ++ [34])

/-- Go `json.Marshal` on the model's value domain.  Pointers are dereferenced
(`null` when nil); `time.Time.MarshalJSON` emits a quoted RFC3339Nano stamp
and rejects years outside `[0, 9999]`; `slog.Level.MarshalJSON` emits the
quoted level name; `jsonOther` carries its own marshalling result.  The two
capability constructors cannot reach `json.Marshal` from `formatValue` (see
`GoAny`) and are mapped to an error. -/
def jsonEncode : GoAny → Except (List Nat) (List Nat)
  | .anil => .ok (gostr "null")
  | .str s => .ok (jsonQuote s)
  | .i64 n => .ok (intDec n)
  | .u64 n => .ok (natDec n)
  | .boolean b => .ok (gostr (if b then "true" else "false"))
  | .withLogValuer _ _ => .error (gostr "unreachable from formatValue")
  | .withFormatter _ => .error (gostr "unreachable from formatValue")
  | .ptr none => .ok (gostr "null")
  | .ptr (some q) => jsonEncode q
  | .timeOpaque t =>
    if 0 ≤ t.year ∧ t.year < 10000 then
      .ok (34 :: (appendFormatRFC3339NanoLayout t ++ [34]))
    else .error (gostr "Time.MarshalJSON: year outside of range [0,9999]")
  | .levelOpaque l => .ok (quoteGo (levelString l))
  | .jsonOther r => r

/-- Source `formatValue` (golog.go): the bytes it appends to the buffer, or
the error it returns.  On every error path of the Go code nothing has been
written to the buffer (`FormatForLog` and `json.Marshal` are checked before
writing, and the `slog.LogValuer` recursion errors only in those same ways),
so a single `Except` return models it faithfully.  Branch order mirrors the
source: nil check, `slog.LogValuer` check, string assertion, type switch
(with `LogFormatter` as a switch case), the reflect nil-pointer check, and
the `json.Marshal` fallback. -/
def formatValueBytes : GoAny → Except (List Nat) (List Nat)
  | .anil => .ok (gostr "null")
  | .withLogValuer yield _ => formatValueBytes yield
  | .str s => .ok (quoteGo s)
  | .i64 n => .ok (intDec n)
  | .u64 n => .ok (natDec n)
  | .boolean b => .ok (gostr (if b then "true" else "false"))
  | .withFormatter r =>
    match r with
    | .ok s => .ok s
    | .error e => .error e
  | .ptr none => .ok (gostr "null")
  | .ptr (some q) => jsonEncode (.ptr (some q))
  | .timeOpaque t => jsonEncode (.timeOpaque t)
  | .levelOpaque l => jsonEncode (.levelOpaque l)
  | .jsonOther r => jsonEncode (.jsonOther r)

/-! ### Handler model -/

/-- A `slog.Value` as the orchestrator inspects it: the time and level slots
are built with `slog.Time` / `slog.Any` and later examined with type
assertions on `.Any()`, so the model keeps those two shapes distinguishable
from everything else. -/
inductive SVal where
  | vtime (t : GoTime)
  | vlevel (l : Int)
  | vany (v : GoAny)

/-- `slog.Value.Any()` as fed to `formatValue`. -/
def SVal.toAny : SVal → GoAny
  | .vtime t => .timeOpaque t
  | .vlevel l => .levelOpaque l
  | .vany v => v

/-- A `slog.Attr`. -/
structure SAttr where
  key : List Nat
  value : SVal

/-- The `ReplaceAttr` rewrite callback: `(groups, attr) → attr`. -/
abbrev ReplaceFn := List (List Nat) → SAttr → SAttr

/-- Source `needsQuoting`: empty, or any rune `≤ ' '`, `=`, `"`, or DEL. -/
def needsQuoting (s : List Nat) : Bool :=
  if s = [] then true
  else s.any (fun r => r ≤ 32 || r == 61 || r == 34 || r == 127)

/-- Key/group rendering as `appendAttr` and the source block do it:
`strconv.Quote` when `needsQuoting`, verbatim otherwise. -/
def renderIdent (s : List Nat) : List Nat :=
  if needsQuoting s then quoteGo s else s

/-- The bytes `appendAttr` writes for an attribute it has decided to render:
a space, each group segment (escaped like a key) followed by a dot, the
escaped key, `=`, and the resolved value — or the `"!ERROR:…"` marker when
resolution fails. -/
def appendAttrBody (groups : List (List Nat)) (attr : SAttr) : List Nat :=
  32 :: (groups.flatMap (fun g => renderIdent g ++ [46])
    ++ renderIdent attr.key ++ [61]
    ++ (match formatValueBytes attr.value.toAny with
        | .ok s => s
        | .error e => 34 :: (gostr "!ERROR:" ++ e ++ [34])))

/-- Source `appendAttr`: when a rewrite callback is installed it runs first
and an empty key drops the attribute; otherwise the attribute is rendered. -/
def appendAttrB (groups : List (List Nat)) (ra : Option ReplaceFn)
    (key : List Nat) (value : SVal) : List Nat :=
  match ra with
  | some f =>
    let attr := f groups ⟨key, value⟩
    if attr.key = [] then [] else appendAttrBody groups attr
  | none => appendAttrBody groups ⟨key, value⟩

/-- Source `formatLevel`: fixed 5-character names for the four standard
levels, otherwise `slog.Level.String()` right-padded to width 5. -/
def formatLevel (l : Int) : List Nat :=
  if l = -4 then gostr "DEBUG"
  else if l = 0 then gostr " INFO"
  else if l = 4 then gostr " WARN"
  else if l = 8 then gostr "ERROR"
  else
    let s := levelString l
    if s.length < 5 then List.replicate (5 - s.length) 32 ++ s else s

def colorReset : List Nat := gostr "\x1b[0m"
def colorRed : List Nat := gostr "\x1b[31m"
def colorGreen : List Nat := gostr "\x1b[32m"
def colorYellow : List Nat := gostr "\x1b[33m"
def colorCyan : List Nat := gostr "\x1b[36m"
def colorWhite : List Nat := gostr "\x1b[37m"

/-- Source `formatLevelWithColor`. -/
def formatLevelWithColor (useColors : Bool) (l : Int) : List Nat :=
  let levelStr := formatLevel l
  if !useColors then levelStr
  else
    let colorCode :=
      if l = -4 then colorCyan
      else if l = 0 then colorGreen
      else if l = 4 then colorYellow
      else if l = 8 then colorRed
      else colorWhite
    colorCode ++ levelStr ++ colorReset

/-- Go `filepath.Base` on a Unix path: strip trailing separators, keep the
part after the last separator; `"."` for the empty path, `"/"` when nothing
remains. -/
def baseName (p : List Nat) : List Nat :=
  if p = [] then [46]
  else
    let p1 := (p.reverse.dropWhile (fun b => b = 47)).reverse
    let p2 := (p1.reverse.takeWhile (fun b => b ≠ 47)).reverse
    if p1 = [] then [47] else if p2 = [] then [47] else p2

/-- The handler state (source `Handler`).  The output writer and its mutex
are modelled by `out`, the sink's response to a written byte sequence
(`none` = success); the `timeFormatter` field is the function stored by
`NewHandler`. -/
structure Handler where
  out : List Nat → Option (List Nat)
  minLevel : Int
  timeFormat : String
  timeFormatter : GoTime → List Nat
  groups : List (List Nat)
  useColors : Bool
  addSource : Bool
  replaceAttr : Option ReplaceFn
  preformattedAttrs : List Nat

/-- A `slog.Record` as the orchestrator consumes it.  `pcFile`/`pcLine` are
the call-site frame resolved from `r.PC` (`pcFile = []` models a frame with
an empty file name). -/
structure Record where
  time : GoTime
  level : Int
  message : List Nat
  pcFile : List Nat
  pcLine : Int
  attrs : List SAttr

def slogTimeKey : List Nat := gostr "time"
def slogLevelKey : List Nat := gostr "level"
def slogMessageKey : List Nat := gostr "msg"
def slogSourceKey : List Nat := gostr "source"

def slogLevelDebug : Int := -4
def slogLevelInfo : Int := 0
def slogLevelWarn : Int := 4
def slogLevelError : Int := 8

/-- The rewrite callback as applied to the built-in fields: `Handle` passes a
nil group slice. -/
def applyBuiltin (ra : Option ReplaceFn) (a : SAttr) : SAttr :=
  match ra with
  | some f => f [] a
  | none => a

/-- The `[time] ` segment of the line (source `Handle`, time block):
suppressed entirely when the rewrite callback empties the key; formats the
callback's value when it is still a `time.Time`, the record's time
otherwise. -/
def timePart (h : Handler) (r : Record) : List Nat :=
  let ta := applyBuiltin h.replaceAttr ⟨slogTimeKey, .vtime r.time⟩
  if ta.key = [] then []
  else
    91 :: ((match ta.value with
            | .vtime t => h.timeFormatter t
            | _ => h.timeFormatter r.time) ++ gostr "] ")

/-- The `[level] ` segment (source `Handle`, level block). -/
def levelPart (h : Handler) (r : Record) : List Nat :=
  let la := applyBuiltin h.replaceAttr ⟨slogLevelKey, .vlevel r.level⟩
  if la.key = [] then []
  else
    91 :: (formatLevelWithColor h.useColors
            (match la.value with
             | .vlevel l => l
             | _ => r.level) ++ gostr "] ")

/-- The `msg=` segment (source `Handle`, message block): a resolution failure
is replaced inline by the error marker. -/
def msgPart (h : Handler) (r : Record) : List Nat :=
  let ma := applyBuiltin h.replaceAttr ⟨slogMessageKey, .vany (.str r.message)⟩
  if ma.key = [] then []
  else
    gostr "msg=" ++
      (match formatValueBytes ma.value.toAny with
       | .ok s => s
       | .error e => 34 :: (gostr "!ERROR:" ++ e ++ [34]))

/-- The `source=` segment (source `Handle`, source block): present only with
`addSource` and a nonempty frame file; the value is rendered with
`formatValue`, whose error (impossible for the string built here) is
discarded without a marker. -/
def srcPart (h : Handler) (r : Record) : List Nat :=
  if h.addSource ∧ r.pcFile ≠ [] then
    let sourceStr := baseName r.pcFile ++ [58] ++ intDec r.pcLine
    let sa := applyBuiltin h.replaceAttr ⟨slogSourceKey, .vany (.str sourceStr)⟩
    if sa.key = [] then []
    else
      32 :: (renderIdent sa.key ++ [61] ++
        (match formatValueBytes sa.value.toAny with
         | .ok s => s
         | .error _ => []))
  else []

/-- The per-event attribute segment: `r.Attrs` iterated through
`appendAttr`. -/
def attrsPart (h : Handler) (r : Record) : List Nat :=
  r.attrs.flatMap (fun a => appendAttrB h.groups h.replaceAttr a.key a.value)

/-- The full line assembled by `Handle` for an enabled record, in source
order: time, level, message, the pre-rendered bound-attribute block copied
verbatim, source, per-event attributes, newline. -/
def handleBytes (h : Handler) (r : Record) : List Nat :=
  timePart h r ++ levelPart h r ++ msgPart h r ++ h.preformattedAttrs
    ++ srcPart h r ++ attrsPart h r ++ [10]

/-- Source `Enabled`: `level >= h.minLevel`. -/
def enabled (h : Handler) (level : Int) : Bool := decide (h.minLevel ≤ level)

/-- Source `Handle`: below the minimum level nothing is written and no error
returned; otherwise the line is written to the sink and the sink's result is
returned.  The pair is (bytes handed to `h.out.Write`, returned error). -/
def Handle (h : Handler) (r : Record) : List Nat × Option (List Nat) :=
  if enabled h r.level then
    (handleBytes h r, h.out (handleBytes h r))
  else ([], none)

/-- Source `Options`: `level = none` models a nil `Level` field (otherwise
the value of `Leveler.Level()`). -/
structure Options where
  level : Option Int
  useColors : Bool
  timeFormat : String
  addSource : Bool
  replaceAttr : Option ReplaceFn

/-- Source `NewHandler`: zero-valued defaults, overridden by a non-nil
options struct; an unset `Level` leaves the zero level, an empty
`TimeFormat` leaves the default layout. -/
def NewHandler (w : List Nat → Option (List Nat)) (opts : Option Options) :
    Handler :=
  let level : Int :=
    match opts with
    | some o => match o.level with
                | some l => l
                | none => 0
    | none => 0
  let useColors : Bool := match opts with | some o => o.useColors | none => false
  let addSource : Bool := match opts with | some o => o.addSource | none => false
  let replaceAttr : Option ReplaceFn :=
    match opts with | some o => o.replaceAttr | none => none
  let timeFormat : String :=
    match opts with
    | some o => if o.timeFormat = "" then defaultTimeFormat else o.timeFormat
    | none => defaultTimeFormat
  { out := w
    minLevel := level
    timeFormat := timeFormat
    timeFormatter := makeTimeFormatter timeFormat
    groups := []
    useColors := useColors
    addSource := addSource
    replaceAttr := replaceAttr
    preformattedAttrs := [] }

/-! ### Derivation with explicit allocation (`WithAttrs` / `WithGroup`)

To state the mutation/aliasing claim about handler derivation, the two slice
fields are modelled with an explicit heap of backing arrays: a slice is an
array identifier plus a length, `make` appends a fresh zeroed array, and
`copy` writes through the destination slice into its backing array.  All
other handler fields are copied verbatim by the `newHandler := *h` struct
copy and do not participate in the claim. -/

/-- A heap of backing arrays; the array identifier is the list index. -/
abbrev HeapOf (α : Type) := List (List α)

/-- A Go slice with offset 0: the backing array identifier and the length. -/
structure HSlice where
  arr : Nat
  len : Nat

/-- The bytes/elements a slice denotes. -/
def readSlice {α : Type} (H : HeapOf α) (s : HSlice) : List α :=
  (H.getD s.arr []).take s.len

/-- `make([]T, n)`: a fresh zeroed backing array of exactly `n` elements. -/
def makeArr {α : Type} (H : HeapOf α) (d : α) (n : Nat) : HeapOf α × HSlice :=
  (H ++ [List.replicate n d], ⟨H.length, n⟩)

/-- `copy(dst, src)`: overwrite the first `min dst.len src.length` positions
of `dst`'s backing array. -/
def copyInto {α : Type} (H : HeapOf α) (dst : HSlice) (src : List α) :
    HeapOf α :=
  let old := H.getD dst.arr []
  let m := min dst.len src.length
  H.set dst.arr (src.take m ++ old.drop m)

/-- `s[i] = x`: write one element through a slice. -/
def setElem {α : Type} (H : HeapOf α) (s : HSlice) (i : Nat) (x : α) :
    HeapOf α :=
  H.set s.arr ((H.getD s.arr []).set i x)

/-- A slice is valid for a heap when its identifier exists and its length is
within the backing array. -/
def sliceWF {α : Type} (H : HeapOf α) (s : HSlice) : Prop :=
  s.arr < H.length ∧ s.len ≤ (H.getD s.arr []).length

/-- The slice-bearing part of a handler, plus the fields `WithAttrs` reads
while rendering. -/
structure HHandler where
  groups : HSlice
  pre : HSlice
  replaceAttr : Option ReplaceFn

/-- The two heaps backing every handler derived from one root: byte arrays
for the pre-rendered blocks and string arrays for the group lists. -/
structure HState where
  bytes : HeapOf Nat
  strs : HeapOf (List Nat)

/-- Source `WithAttrs` at the slice level: identity for an empty attribute
slice; otherwise the group list is copied (`make` + `copy`), the existing
pre-rendered block and the freshly rendered attributes are written into a
pooled buffer (a local value here), and the buffer is copied into a fresh
byte array (`make` + `copy`) stored in the new handler. -/
def withAttrsH (σ : HState) (h : HHandler) (attrs : List SAttr) :
    HState × HHandler :=
  if attrs.length = 0 then (σ, h)
  else
    let gs := readSlice σ.strs h.groups
    let mk1 := makeArr σ.strs [] h.groups.len
    let hg := copyInto mk1.1 mk1.2 gs
    let buf := readSlice σ.bytes h.pre
      ++ attrs.flatMap (fun a => appendAttrB gs h.replaceAttr a.key a.value)
    let mk2 := makeArr σ.bytes 0 buf.length
    let hb := copyInto mk2.1 mk2.2 buf
    (⟨hb, hg⟩, { h with groups := mk1.2, pre := mk2.2 })

/-- Source `WithGroup` at the slice level: identity for an empty name;
otherwise the pre-rendered block is copied when nonempty (left shared when
empty, as in the source), and the group list is rebuilt one longer with the
new name written into the last slot. -/
def withGroupH (σ : HState) (h : HHandler) (name : List Nat) :
    HState × HHandler :=
  if name = [] then (σ, h)
  else
    let st1 :=
      if 0 < h.pre.len then
        let mk1 := makeArr σ.bytes 0 h.pre.len
        (copyInto mk1.1 mk1.2 (readSlice σ.bytes h.pre), mk1.2)
      else (σ.bytes, h.pre)
    let gs := readSlice σ.strs h.groups
    let mk2 := makeArr σ.strs [] (h.groups.len + 1)
    let hg1 := copyInto mk2.1 mk2.2 gs
    let hg2 := setElem hg1 mk2.2 h.groups.len name
    (⟨st1.1, hg2⟩, { h with groups := mk2.2, pre := st1.2 })

/-! ### Supporting lemmas -/

instance exceptDecEq {ε α : Type} [DecidableEq ε] [DecidableEq α] :
    DecidableEq (Except ε α)
  | .ok a, .ok b =>
    if h : a = b then isTrue (by rw [h]) else isFalse (by simp [h])
  | .error a, .error b =>
    if h : a = b then isTrue (by rw [h]) else isFalse (by simp [h])
  | .ok _, .error _ => isFalse (by simp)
  | .error _, .ok _ => isFalse (by simp)

theorem natDecAux_eq (n : Nat) : ∀ fuel, n ≤ fuel →
    natDecAux fuel n = ((Nat.digits 10 n).map (fun d => 48 + d)).reverse := by
  induction n using Nat.strong_induction_on with
  | _ n ih =>
    intro fuel hfuel
    cases fuel with
    | zero =>
      have hn : n = 0 := by omega
      subst hn
      simp [natDecAux]
    | succ f =>
      by_cases hn : n = 0
      · subst hn; simp [natDecAux]
      · rw [natDecAux, if_neg hn]
        have hlt : n / 10 < n := Nat.div_lt_self (Nat.pos_of_ne_zero hn) (by norm_num)
        rw [ih (n / 10) hlt f (by omega)]
        rw [Nat.digits_def' (by norm_num : 1 < 10) (Nat.pos_of_ne_zero hn)]
        simp

theorem natDec_length_ge_four {n : Nat} (h : 1000 ≤ n) : 4 ≤ (natDec n).length := by
  have hn : n ≠ 0 := by omega
  have he : natDec n = ((Nat.digits 10 n).map (fun d => 48 + d)).reverse := by
    rw [natDec, if_neg hn]
    exact natDecAux_eq n (n + 1) (by omega)
  have hd : 4 ≤ (Nat.digits 10 n).length := by
    by_contra hc
    push_neg at hc
    have h1 : n < 10 ^ (Nat.digits 10 n).length :=
      Nat.lt_base_pow_length_digits (by norm_num)
    have h2 : (10 : Nat) ^ (Nat.digits 10 n).length ≤ 10 ^ 3 :=
      Nat.pow_le_pow_right (by norm_num) (by omega)
    norm_num at h2
    omega
  rw [he]
  simpa using hd

theorem timeAppendInt_wide_year {y : Int} (hy : 1000 ≤ y) :
    timeAppendInt y 4 = intDec y := by
  have hneg : ¬ y < 0 := by omega
  have habs : 1000 ≤ y.natAbs := by omega
  rw [timeAppendInt, if_neg hneg, intDec, if_neg hneg, padTo,
    Nat.sub_eq_zero_of_le (natDec_length_ge_four habs)]
  simp

set_option maxRecDepth 4000 in
theorem padTo_two_eq : ∀ m < 100,
    padTo 2 m = (if m < 10 then [48] else []) ++ natDec m := by
  decide

set_option maxRecDepth 40000 in
theorem fixedDigits_three_eq : ∀ m < 1000, fixedDigits 3 m =
    (if m < 100 then [48] ++ (if m < 10 then [48] else []) else []) ++ natDec m := by
  decide

theorem fixedDigits_take_three (n : Nat) :
    (fixedDigits 9 n).take 3 = fixedDigits 3 (n / 1000000) := by
  rw [fixedDigits, fixedDigits, ← List.map_take, List.take_range]
  have hmin : min 3 9 = 3 := by norm_num
  rw [hmin]
  apply List.map_congr_left
  intro i hi
  rw [List.mem_range] at hi
  interval_cases i <;> norm_num [Nat.div_div_eq_div_mul]

/-- The specialized default-layout encoder and the generic layout engine do
agree on every valid timestamp whose year has at least four digits; the
divergence (see the C2 theorem) is confined to years below 1000. -/
theorem formatTimeDefault_agrees_generic (t : GoTime) (hv : t.Valid)
    (hy : 1000 ≤ t.year) : formatTimeDefault t = appendFormatDefaultLayout t := by
  obtain ⟨h1, h2, h3, h4, h5, h6, h7, h8⟩ := hv
  have hms : t.nsec / 1000000 < 1000 := by omega
  simp only [formatTimeDefault, appendFormatDefaultLayout, fracSec0]
  rw [timeAppendInt_wide_year hy,
    padTo_two_eq t.month (by omega), padTo_two_eq t.day (by omega),
    padTo_two_eq t.hour (by omega), padTo_two_eq t.minute (by omega),
    padTo_two_eq t.sec (by omega),
    fixedDigits_take_three, fixedDigits_three_eq _ hms]
  simp [List.append_assoc]

/-! ### Claim theorems -/

/-- C2: the claim that the specialized encoder returned by the time-formatter
selector writes exactly the bytes of the generic layout-driven encoder fails
on the code: for the default layout at a valid timestamp in year 999 the
specialized path writes a three-digit year (`strconv.AppendInt`, no padding)
while `t.AppendFormat` zero-pads the year chunk to four digits. -/
theorem c2_default_encoder_not_byte_identical :
    makeTimeFormatter defaultTimeFormat ⟨999, 1, 15, 10, 30, 45, 123456789, 0⟩ ≠
      appendFormatGo defaultTimeFormat ⟨999, 1, 15, 10, 30, 45, 123456789, 0⟩ ∧
    makeTimeFormatter defaultTimeFormat ⟨999, 1, 15, 10, 30, 45, 123456789, 0⟩ =
      gostr "999-01-15 10:30:45.123" ∧
    appendFormatGo defaultTimeFormat ⟨999, 1, 15, 10, 30, 45, 123456789, 0⟩ =
      gostr "0999-01-15 10:30:45.123" ∧
    GoTime.Valid ⟨999, 1, 15, 10, 30, 45, 123456789, 0⟩ :=
  ⟨by decide, by decide, by decide, by decide⟩

/-- C6: a value whose type carries both the value-provider capability
(`slog.LogValuer`) and the custom-formatter capability (`LogFormatter`) is
resolved through the value-provider (recursively, on the yielded value) and
the custom-formatter result is never consulted; the custom-formatter runs
exactly when the value-provider capability is absent. -/
theorem c6_value_provider_precedence (y : GoAny)
    (r1 r2 : Except (List Nat) (List Nat)) (s e : List Nat) :
    formatValueBytes (.withLogValuer y (some r1)) = formatValueBytes y ∧
    formatValueBytes (.withLogValuer y (some r1)) =
      formatValueBytes (.withLogValuer y (some r2)) ∧
    formatValueBytes (.withLogValuer y none) = formatValueBytes y ∧
    formatValueBytes (.withFormatter (.ok s)) = .ok s ∧
    formatValueBytes (.withFormatter (.error e)) = .error e :=
  ⟨rfl, rfl, rfl, rfl, rfl⟩

/-- C7 (counterexample): a non-nil pointer to a string does not resolve as
the string itself would.  At the string `[0x7F]` the pointer goes to
`json.Marshal`, which leaves DEL raw, while the string resolves through
`strconv.Quote`, which escapes it as `\x7f`. -/
theorem c7_pointer_counterexample :
    formatValueBytes (.ptr (some (.str [127]))) ≠ formatValueBytes (.str [127]) ∧
    formatValueBytes (.ptr (some (.str [127]))) = .ok [34, 127, 34] ∧
    formatValueBytes (.str [127]) = .ok (gostr "\"\\x7f\"") :=
  ⟨by decide, by decide, by decide⟩

/-- C7 (amended): a nil pointer resolves to the literal `null`; a non-nil
pointer is handed to the generic JSON fallback (`json.Marshal` of the
pointer, which encodes the pointee by JSON rules) rather than being
re-resolved from step 1 — in particular a pointer to a string renders as the
JSON string encoding of the pointee. -/
theorem c7_pointer_amended (q : GoAny) (s : List Nat) :
    formatValueBytes (.ptr none) = .ok (gostr "null") ∧
    formatValueBytes (.ptr (some q)) = jsonEncode q ∧
    formatValueBytes (.ptr (some (.str s))) = .ok (jsonQuote s) :=
  ⟨rfl, rfl, rfl⟩

/-- C9: a record below the minimum level is a no-op — `Handle` hands nothing
to the sink and returns no error; a record at or above the minimum level has
its assembled line (newline-terminated) written to the sink. -/
theorem c9_minimum_level_gate (h : Handler) (r : Record) :
    (r.level < h.minLevel → Handle h r = ([], none)) ∧
    (h.minLevel ≤ r.level →
      Handle h r = (handleBytes h r, h.out (handleBytes h r)) ∧
      (handleBytes h r).getLast? = some 10) := by
  constructor
  · intro hlt
    have hne : ¬ (h.minLevel ≤ r.level) := by omega
    simp [Handle, enabled, hne]
  · intro hle
    refine ⟨by simp [Handle, enabled, hle], ?_⟩
    rw [handleBytes]
    exact List.getLast?_concat _

def wSink : List Nat → Option (List Nat) := fun _ => none

def wTime : GoTime := ⟨2024, 1, 15, 10, 30, 45, 123456789, 0⟩

def wHandlerWarn : Handler :=
  ⟨wSink, 4, defaultTimeFormat, makeTimeFormatter defaultTimeFormat, [],
    false, false, none, []⟩

def wRecordInfo : Record := ⟨wTime, 0, gostr "hello", [], 0, []⟩

def wRecordWarn : Record := ⟨wTime, 4, gostr "hello", [], 0, []⟩

theorem c9_minimum_level_gate_witness :
    Handle wHandlerWarn wRecordInfo = ([], none) ∧
    Handle wHandlerWarn wRecordWarn =
      (handleBytes wHandlerWarn wRecordWarn,
        wHandlerWarn.out (handleBytes wHandlerWarn wRecordWarn)) ∧
    (handleBytes wHandlerWarn wRecordWarn).getLast? = some 10 :=
  ⟨(c9_minimum_level_gate wHandlerWarn wRecordInfo).1 (by decide),
    ((c9_minimum_level_gate wHandlerWarn wRecordWarn).2 (by decide)).1,
    ((c9_minimum_level_gate wHandlerWarn wRecordWarn).2 (by decide)).2⟩

/-- C10: with nil options, or options whose `Level` field is unset, the
minimum level stays at its zero value, which is the INFO severity, so a
DEBUG record (level -4) is suppressed by a default-configured handler. -/
theorem c10_default_minimum_level (w : List Nat → Option (List Nat))
    (o : Options) (r : Record) (ho : o.level = none)
    (hr : r.level = slogLevelDebug) :
    (NewHandler w none).minLevel = slogLevelInfo ∧
    (NewHandler w (some o)).minLevel = slogLevelInfo ∧
    slogLevelInfo = 0 ∧ slogLevelDebug = -4 ∧
    Handle (NewHandler w none) r = ([], none) ∧
    Handle (NewHandler w (some o)) r = ([], none) := by
  have hmin : (NewHandler w (some o)).minLevel = 0 := by
    simp [NewHandler, ho]
  refine ⟨rfl, hmin, rfl, rfl, ?_, ?_⟩
  · have hne : ¬ ((NewHandler w none).minLevel ≤ r.level) := by
      simp [NewHandler, hr, slogLevelDebug]
    simp [Handle, enabled, hne]
  · have hne : ¬ ((NewHandler w (some o)).minLevel ≤ r.level) := by
      rw [hmin, hr]
      simp [slogLevelDebug]
    simp [Handle, enabled, hne]

def wOptionsNoLevel : Options := ⟨none, false, "", false, none⟩

def wRecordDebug : Record := ⟨wTime, -4, gostr "hello", [], 0, []⟩

theorem c10_default_minimum_level_witness :
    (NewHandler wSink none).minLevel = slogLevelInfo ∧
    (NewHandler wSink (some wOptionsNoLevel)).minLevel = slogLevelInfo ∧
    Handle (NewHandler wSink none) wRecordDebug = ([], none) ∧
    Handle (NewHandler wSink (some wOptionsNoLevel)) wRecordDebug = ([], none) :=
  ⟨(c10_default_minimum_level wSink wOptionsNoLevel wRecordDebug rfl rfl).1,
    (c10_default_minimum_level wSink wOptionsNoLevel wRecordDebug rfl rfl).2.1,
    (c10_default_minimum_level wSink wOptionsNoLevel wRecordDebug rfl rfl).2.2.2.2.1,
    (c10_default_minimum_level wSink wOptionsNoLevel wRecordDebug rfl rfl).2.2.2.2.2⟩

/-- C3: resolving a string writes the `strconv.Quote` literal: it is
double-quoted, every byte of the output is printable ASCII (so quote,
backslash and all control characters have been escaped rather than passed
through), and `strconv.Unquote` parses it back to exactly the original
string. -/
theorem c3_string_escape_roundtrip (s : List Nat) (hs : ∀ c ∈ s, c < 128) :
    formatValueBytes (.str s) = .ok (quoteGo s) ∧
    (quoteGo s).head? = some 34 ∧
    (quoteGo s).getLast? = some 34 ∧
    (∀ b ∈ quoteGo s, 32 ≤ b ∧ b ≤ 126) ∧
    unquoteGo (quoteGo s) = some s := by
  refine ⟨rfl, rfl, ?_, ?_, unquoteGo_quoteGo s hs⟩
  · rw [quoteGo,
      show (34 :: (s.flatMap escRune ++ [34])) = (34 :: s.flatMap escRune) ++ [34]
        by simp]
    exact List.getLast?_concat _
  · intro b hb
    rw [quoteGo] at hb
    simp only [List.mem_cons, List.mem_append, List.not_mem_nil, or_false] at hb
    rcases hb with rfl | hb | rfl
    · omega
    · exact flatMap_escRune_printable hs b hb
    · omega

def wEscString : List Nat := gostr "a\"\\" ++ [10, 1, 127]

theorem c3_string_escape_roundtrip_witness :
    (∀ c ∈ wEscString, c < 128) ∧
    formatValueBytes (.str wEscString) = .ok (quoteGo wEscString) ∧
    unquoteGo (quoteGo wEscString) = some wEscString :=
  ⟨by decide, (c3_string_escape_roundtrip wEscString (by decide)).1,
    (c3_string_escape_roundtrip wEscString (by decide)).2.2.2.2⟩

/-- C8: `needsQuoting` holds exactly for the empty string and strings with a
character ≤ 0x20, `=`, `"`, or DEL; a quoting identifier renders as the
double-quoted escaped literal and any other verbatim; and `appendAttr`
applies the very same `renderIdent` rule to every group segment of the
dotted prefix and to the key. -/
theorem c8_key_quoting_rule (s : List Nat) (groups : List (List Nat))
    (a : SAttr) :
    (needsQuoting s = true ↔
      s = [] ∨ ∃ c ∈ s, c ≤ 32 ∨ c = 61 ∨ c = 34 ∨ c = 127) ∧
    (needsQuoting s = true →
      renderIdent s = quoteGo s ∧ (renderIdent s).head? = some 34) ∧
    (needsQuoting s = false → renderIdent s = s) ∧
    appendAttrBody groups a =
      32 :: (groups.flatMap (fun g => renderIdent g ++ [46])
        ++ renderIdent a.key ++ [61]
        ++ (match formatValueBytes a.value.toAny with
            | .ok v => v
            | .error e => 34 :: (gostr "!ERROR:" ++ e ++ [34]))) := by
  refine ⟨?_, ?_, ?_, rfl⟩
  · rw [needsQuoting]
    by_cases h : s = []
    · simp [h]
    · rw [if_neg h]
      simp only [List.any_eq_true, Bool.or_eq_true, decide_eq_true_eq,
        beq_iff_eq]
      constructor
      · rintro ⟨c, hc, hd⟩
        exact Or.inr ⟨c, hc, by tauto⟩
      · rintro (h' | ⟨c, hc, hd⟩)
        · exact absurd h' h
        · exact ⟨c, hc, by tauto⟩
  · intro h
    rw [renderIdent, if_pos h]
    exact ⟨rfl, rfl⟩
  · intro h
    rw [renderIdent, if_neg (by simp [h])]

def wQuotedKey : List Nat := gostr "a b"

def wPlainKey : List Nat := gostr "ab"

theorem c8_key_quoting_rule_witness :
    (needsQuoting wQuotedKey = true ↔
      wQuotedKey = [] ∨ ∃ c ∈ wQuotedKey, c ≤ 32 ∨ c = 61 ∨ c = 34 ∨ c = 127) ∧
    renderIdent wQuotedKey = quoteGo wQuotedKey ∧
    renderIdent wPlainKey = wPlainKey :=
  ⟨(c8_key_quoting_rule wQuotedKey [] ⟨[], .vany .anil⟩).1,
    ((c8_key_quoting_rule wQuotedKey [] ⟨[], .vany .anil⟩).2.1 (by decide)).1,
    (c8_key_quoting_rule wPlainKey [] ⟨[], .vany .anil⟩).2.2.1 (by decide)⟩

/-- The attribute `appendAttr` actually renders: the rewrite callback's
output when one is installed, the original attribute otherwise. -/
def replacedAttr (ra : Option ReplaceFn) (groups : List (List Nat))
    (a : SAttr) : SAttr :=
  match ra with
  | some f => f groups a
  | none => a

/-- C4: on an enabled record, a failing value resolution for one attribute
is confined to that attribute — its value slot carries the inline
`"!ERROR:<description>"` marker while every surrounding field is rendered
unchanged — and `Handle`'s return value is exactly the sink's response to
the final write, never the resolution error. -/
theorem c4_resolution_failure_is_local (h : Handler) (r : Record)
    (pre post : List SAttr) (a : SAttr) (e : List Nat)
    (henb : h.minLevel ≤ r.level)
    (hattrs : r.attrs = pre ++ a :: post)
    (hkeep : (replacedAttr h.replaceAttr h.groups a).key ≠ [])
    (hfail : formatValueBytes (replacedAttr h.replaceAttr h.groups a).value.toAny
      = .error e) :
    Handle h r = (handleBytes h r, h.out (handleBytes h r)) ∧
    (Handle h r).2 = h.out (handleBytes h r) ∧
    handleBytes h r =
      timePart h r ++ levelPart h r ++ msgPart h r ++ h.preformattedAttrs
        ++ srcPart h r
        ++ pre.flatMap (fun b => appendAttrB h.groups h.replaceAttr b.key b.value)
        ++ (32 :: (h.groups.flatMap (fun g => renderIdent g ++ [46])
            ++ renderIdent (replacedAttr h.replaceAttr h.groups a).key ++ [61]
            ++ (34 :: (gostr "!ERROR:" ++ e ++ [34]))))
        ++ post.flatMap (fun b => appendAttrB h.groups h.replaceAttr b.key b.value)
        ++ [10] := by
  have h1 : Handle h r = (handleBytes h r, h.out (handleBytes h r)) := by
    simp [Handle, enabled, henb]
  refine ⟨h1, by rw [h1], ?_⟩
  have hmid : appendAttrB h.groups h.replaceAttr a.key a.value =
      32 :: (h.groups.flatMap (fun g => renderIdent g ++ [46])
        ++ renderIdent (replacedAttr h.replaceAttr h.groups a).key ++ [61]
        ++ (34 :: (gostr "!ERROR:" ++ e ++ [34]))) := by
    cases hra : h.replaceAttr with
    | none =>
      rw [hra] at hkeep hfail
      simp only [replacedAttr] at hkeep hfail
      simp [appendAttrB, appendAttrBody, replacedAttr, hra, hfail]
    | some f =>
      rw [hra] at hkeep hfail
      simp only [replacedAttr] at hkeep hfail
      simp [appendAttrB, appendAttrBody, replacedAttr, hra, hkeep, hfail]
  rw [handleBytes, attrsPart, hattrs, List.flatMap_append, List.flatMap_cons,
    hmid]
  simp [List.append_assoc]

def wF4Val : GoAny := .withFormatter (.error (gostr "boom"))

def wPre4 : List SAttr := [⟨gostr "a", .vany (.u64 1)⟩]

def wPost4 : List SAttr := [⟨gostr "b", .vany (.str (gostr "ok"))⟩]

def wA4 : SAttr := ⟨gostr "bad", .vany wF4Val⟩

def wH4 : Handler :=
  ⟨wSink, 0, defaultTimeFormat, makeTimeFormatter defaultTimeFormat,
    [gostr "g"], false, false, none, []⟩

def wR4 : Record := ⟨wTime, 0, gostr "hello", [], 0, wPre4 ++ wA4 :: wPost4⟩

theorem c4_resolution_failure_is_local_witness :
    (Handle wH4 wR4).2 = wH4.out (handleBytes wH4 wR4) ∧
    handleBytes wH4 wR4 =
      timePart wH4 wR4 ++ levelPart wH4 wR4 ++ msgPart wH4 wR4
        ++ wH4.preformattedAttrs ++ srcPart wH4 wR4
        ++ wPre4.flatMap
            (fun b => appendAttrB wH4.groups wH4.replaceAttr b.key b.value)
        ++ (32 :: (wH4.groups.flatMap (fun g => renderIdent g ++ [46])
            ++ renderIdent (replacedAttr wH4.replaceAttr wH4.groups wA4).key
            ++ [61] ++ (34 :: (gostr "!ERROR:" ++ gostr "boom" ++ [34]))))
        ++ wPost4.flatMap
            (fun b => appendAttrB wH4.groups wH4.replaceAttr b.key b.value)
        ++ [10] :=
  ⟨(c4_resolution_failure_is_local wH4 wR4 wPre4 wPost4 wA4 (gostr "boom")
      (by decide) rfl (by decide) (by decide)).2.1,
    (c4_resolution_failure_is_local wH4 wR4 wPre4 wPost4 wA4 (gostr "boom")
      (by decide) rfl (by decide) (by decide)).2.2⟩

/-- C5: a rewrite callback returning an empty key suppresses exactly that
field: a per-event attribute so rewritten disappears from the line while its
siblings render unchanged in their original order, and the same empty-key
rule removes the built-in time (with its brackets), level, message, and
source fields. -/
theorem c5_empty_key_omits_field (h : Handler) (r : Record) (f : ReplaceFn)
    (pre post : List SAttr) (a : SAttr)
    (hra : h.replaceAttr = some f)
    (hattrs : r.attrs = pre ++ a :: post)
    (hkey : (f h.groups a).key = []) :
    handleBytes h r =
      timePart h r ++ levelPart h r ++ msgPart h r ++ h.preformattedAttrs
        ++ srcPart h r
        ++ pre.flatMap (fun b => appendAttrB h.groups h.replaceAttr b.key b.value)
        ++ post.flatMap (fun b => appendAttrB h.groups h.replaceAttr b.key b.value)
        ++ [10] ∧
    ((f [] ⟨slogTimeKey, .vtime r.time⟩).key = [] → timePart h r = []) ∧
    ((f [] ⟨slogLevelKey, .vlevel r.level⟩).key = [] → levelPart h r = []) ∧
    ((f [] ⟨slogMessageKey, .vany (.str r.message)⟩).key = [] →
      msgPart h r = []) ∧
    ((f [] ⟨slogSourceKey,
        .vany (.str (baseName r.pcFile ++ [58] ++ intDec r.pcLine))⟩).key = [] →
      srcPart h r = []) := by
  refine ⟨?_, ?_, ?_, ?_, ?_⟩
  · have hmid : appendAttrB h.groups h.replaceAttr a.key a.value = [] := by
      simp [appendAttrB, hra, hkey]
    rw [handleBytes, attrsPart, hattrs, List.flatMap_append, List.flatMap_cons,
      hmid]
    simp [List.append_assoc]
  · intro ht
    simp [timePart, applyBuiltin, hra, ht]
  · intro hl
    simp [levelPart, applyBuiltin, hra, hl]
  · intro hm
    simp [msgPart, applyBuiltin, hra, hm]
  · intro hsrc
    rw [srcPart]
    split
    · simp only [applyBuiltin, hra]
      rw [if_pos hsrc]
    · rfl

def wF5 : ReplaceFn := fun _ a =>
  if a.key = gostr "internal" ∨ a.key = slogTimeKey then ⟨[], a.value⟩ else a

def wPre5 : List SAttr := [⟨gostr "a", .vany (.u64 1)⟩]

def wPost5 : List SAttr := [⟨gostr "b", .vany (.boolean true)⟩]

def wA5 : SAttr := ⟨gostr "internal", .vany (.str (gostr "secret"))⟩

def wH5 : Handler :=
  ⟨wSink, 0, defaultTimeFormat, makeTimeFormatter defaultTimeFormat, [],
    false, false, some wF5, []⟩

def wR5 : Record := ⟨wTime, 0, gostr "hello", [], 0, wPre5 ++ wA5 :: wPost5⟩

theorem c5_empty_key_omits_field_witness :
    handleBytes wH5 wR5 =
      timePart wH5 wR5 ++ levelPart wH5 wR5 ++ msgPart wH5 wR5
        ++ wH5.preformattedAttrs ++ srcPart wH5 wR5
        ++ wPre5.flatMap
            (fun b => appendAttrB wH5.groups wH5.replaceAttr b.key b.value)
        ++ wPost5.flatMap
            (fun b => appendAttrB wH5.groups wH5.replaceAttr b.key b.value)
        ++ [10] ∧
    timePart wH5 wR5 = [] :=
  ⟨(c5_empty_key_omits_field wH5 wR5 wF5 wPre5 wPost5 wA5 rfl rfl
      (by decide)).1,
    (c5_empty_key_omits_field wH5 wR5 wF5 wPre5 wPost5 wA5 rfl rfl
      (by decide)).2.1 (by decide)⟩

/-! ### Heap lemmas for the derivation claim -/

theorem getD_append_lt {α : Type} (H : HeapOf α) (x : List α) {i : Nat}
    (hi : i < H.length) : (H ++ [x]).getD i [] = H.getD i [] := by
  simp [List.getD_eq_getElem?_getD, List.getElem?_append_left hi]

theorem getD_append_self {α : Type} (H : HeapOf α) (x : List α) :
    (H ++ [x]).getD H.length [] = x := by
  rw [List.getD_eq_getElem?_getD, List.getElem?_append_right le_rfl]
  simp

theorem set_append_last {α : Type} (H : List α) (z y : α) :
    (H ++ [z]).set H.length y = H ++ [y] := by
  induction H with
  | nil => rfl
  | cons a t ih =>
    simp only [List.cons_append, List.length_cons, List.set_cons_succ, ih]

theorem copy_fresh_exact {α : Type} (H : HeapOf α) (d : α) (src : List α) :
    copyInto (H ++ [List.replicate src.length d]) ⟨H.length, src.length⟩ src =
      H ++ [src] := by
  simp only [copyInto, getD_append_self, min_self, List.take_length]
  have hdrop : (List.replicate src.length d).drop src.length = [] := by simp
  rw [hdrop, List.append_nil, set_append_last]

theorem copy_fresh_less {α : Type} (H : HeapOf α) (d : α) (src : List α)
    (n : Nat) (hn : src.length ≤ n) :
    copyInto (H ++ [List.replicate n d]) ⟨H.length, n⟩ src =
      H ++ [src ++ List.replicate (n - src.length) d] := by
  simp only [copyInto, getD_append_self]
  rw [Nat.min_eq_right hn, List.take_length]
  have hdrop : (List.replicate n d).drop src.length =
      List.replicate (n - src.length) d := by
    simp [List.drop_replicate]
  rw [hdrop, set_append_last]

theorem group_copy_set {α : Type} (H : HeapOf α) (src : List α) (y d : α) :
    setElem
      (copyInto (H ++ [List.replicate (src.length + 1) d])
        ⟨H.length, src.length + 1⟩ src)
      ⟨H.length, src.length + 1⟩ src.length y = H ++ [src ++ [y]] := by
  rw [copy_fresh_less H d src (src.length + 1) (by omega)]
  have h1 : src.length + 1 - src.length = 1 := by omega
  rw [h1]
  simp only [setElem, getD_append_self, List.replicate_one]
  rw [set_append_last src d y, set_append_last]

theorem readSlice_length {α : Type} (H : HeapOf α) (s : HSlice)
    (hwf : sliceWF H s) : (readSlice H s).length = s.len := by
  rw [readSlice, List.length_take]
  exact Nat.min_eq_left hwf.2

/-- Derivation spec for `WithAttrs` on nonempty attributes: no slice readable
in either old heap changes (so neither the ancestor's nor any sibling's group
list or byte block is observably affected), the returned handler's two slices
live in freshly allocated arrays, the new byte block reads as the old block
followed by the rendered new attributes, and the group list reads
unchanged. -/
theorem withAttrsH_spec (σ : HState) (h : HHandler) (attrs : List SAttr)
    (hwfp : sliceWF σ.bytes h.pre) (hwfg : sliceWF σ.strs h.groups)
    (hattrs : attrs ≠ []) :
    (∀ sl, sliceWF σ.bytes sl →
      readSlice (withAttrsH σ h attrs).1.bytes sl = readSlice σ.bytes sl) ∧
    (∀ sl, sliceWF σ.strs sl →
      readSlice (withAttrsH σ h attrs).1.strs sl = readSlice σ.strs sl) ∧
    (withAttrsH σ h attrs).2.pre.arr = σ.bytes.length ∧
    (withAttrsH σ h attrs).2.groups.arr = σ.strs.length ∧
    readSlice (withAttrsH σ h attrs).1.bytes (withAttrsH σ h attrs).2.pre =
      readSlice σ.bytes h.pre ++ attrs.flatMap
        (fun a => appendAttrB (readSlice σ.strs h.groups) h.replaceAttr
          a.key a.value) ∧
    readSlice (withAttrsH σ h attrs).1.strs (withAttrsH σ h attrs).2.groups =
      readSlice σ.strs h.groups ∧
    (withAttrsH σ h attrs).2.replaceAttr = h.replaceAttr := by
  have hlen0 : ¬ (attrs.length = 0) := by
    simpa [List.length_eq_zero] using hattrs
  have hglen : (readSlice σ.strs h.groups).length = h.groups.len :=
    readSlice_length σ.strs h.groups hwfg
  have hbytes : (withAttrsH σ h attrs).1.bytes =
      σ.bytes ++ [readSlice σ.bytes h.pre ++ attrs.flatMap
        (fun a => appendAttrB (readSlice σ.strs h.groups) h.replaceAttr
          a.key a.value)] := by
    simp only [withAttrsH, if_neg hlen0, makeArr]
    exact copy_fresh_exact σ.bytes 0 _
  have hstrs : (withAttrsH σ h attrs).1.strs =
      σ.strs ++ [readSlice σ.strs h.groups] := by
    simp only [withAttrsH, if_neg hlen0, makeArr]
    rw [← hglen]
    exact copy_fresh_exact σ.strs [] _
  have hpre : (withAttrsH σ h attrs).2.pre =
      ⟨σ.bytes.length, (readSlice σ.bytes h.pre ++ attrs.flatMap
        (fun a => appendAttrB (readSlice σ.strs h.groups) h.replaceAttr
          a.key a.value)).length⟩ := by
    simp only [withAttrsH, if_neg hlen0, makeArr]
  have hgrp : (withAttrsH σ h attrs).2.groups =
      ⟨σ.strs.length, h.groups.len⟩ := by
    simp only [withAttrsH, if_neg hlen0, makeArr]
  refine ⟨?_, ?_, ?_, ?_, ?_, ?_, ?_⟩
  · intro sl hsl
    rw [hbytes, readSlice, readSlice, getD_append_lt σ.bytes _ hsl.1]
    rfl
  · intro sl hsl
    rw [hstrs, readSlice, readSlice, getD_append_lt σ.strs _ hsl.1]
    rfl
  · rw [hpre]
  · rw [hgrp]
  · rw [hbytes, hpre, readSlice, getD_append_self, List.take_length]
  · rw [hstrs, hgrp, readSlice, getD_append_self, ← hglen, List.take_length]
  · simp only [withAttrsH, if_neg hlen0]

/-- Derivation spec for `WithGroup` on a nonempty name: no slice readable in
either old heap changes, the returned handler's group list is freshly
allocated and reads as the old list with the name appended, and its byte
block reads unchanged (freshly allocated whenever the old block was
nonempty). -/
theorem withGroupH_spec (σ : HState) (h : HHandler) (name : List Nat)
    (hwfp : sliceWF σ.bytes h.pre) (hwfg : sliceWF σ.strs h.groups)
    (hname : name ≠ []) :
    (∀ sl, sliceWF σ.bytes sl →
      readSlice (withGroupH σ h name).1.bytes sl = readSlice σ.bytes sl) ∧
    (∀ sl, sliceWF σ.strs sl →
      readSlice (withGroupH σ h name).1.strs sl = readSlice σ.strs sl) ∧
    (withGroupH σ h name).2.groups.arr = σ.strs.length ∧
    (0 < h.pre.len → (withGroupH σ h name).2.pre.arr = σ.bytes.length) ∧
    readSlice (withGroupH σ h name).1.strs (withGroupH σ h name).2.groups =
      readSlice σ.strs h.groups ++ [name] ∧
    readSlice (withGroupH σ h name).1.bytes (withGroupH σ h name).2.pre =
      readSlice σ.bytes h.pre ∧
    (withGroupH σ h name).2.replaceAttr = h.replaceAttr := by
  have hplen : (readSlice σ.bytes h.pre).length = h.pre.len :=
    readSlice_length σ.bytes h.pre hwfp
  have hglen : (readSlice σ.strs h.groups).length = h.groups.len :=
    readSlice_length σ.strs h.groups hwfg
  have hstrs : (withGroupH σ h name).1.strs =
      σ.strs ++ [readSlice σ.strs h.groups ++ [name]] := by
    simp only [withGroupH, if_neg hname, makeArr]
    rw [← hglen]
    exact group_copy_set σ.strs _ name []
  have hgrp : (withGroupH σ h name).2.groups =
      ⟨σ.strs.length, h.groups.len + 1⟩ := by
    simp only [withGroupH, if_neg hname, makeArr]
  have hraeq : (withGroupH σ h name).2.replaceAttr = h.replaceAttr := by
    simp only [withGroupH, if_neg hname]
  by_cases hc : 0 < h.pre.len
  · have hbytes : (withGroupH σ h name).1.bytes =
        σ.bytes ++ [readSlice σ.bytes h.pre] := by
      simp only [withGroupH, if_neg hname, if_pos hc, makeArr]
      rw [← hplen]
      exact copy_fresh_exact σ.bytes 0 _
    have hpre : (withGroupH σ h name).2.pre = ⟨σ.bytes.length, h.pre.len⟩ := by
      simp only [withGroupH, if_neg hname, if_pos hc, makeArr]
    refine ⟨?_, ?_, ?_, ?_, ?_, ?_, hraeq⟩
    · intro sl hsl
      rw [hbytes, readSlice, readSlice, getD_append_lt σ.bytes _ hsl.1]
      rfl
    · intro sl hsl
      rw [hstrs, readSlice, readSlice, getD_append_lt σ.strs _ hsl.1]
      rfl
    · rw [hgrp]
    · intro _
      rw [hpre]
    · rw [hstrs, hgrp, readSlice, getD_append_self]
      have hl : (readSlice σ.strs h.groups ++ [name]).length = h.groups.len + 1 := by
        simp [hglen]
      rw [← hl, List.take_length]
    · rw [hbytes, hpre, readSlice, getD_append_self, ← hplen, List.take_length]
  · have hbytes : (withGroupH σ h name).1.bytes = σ.bytes := by
      simp only [withGroupH, if_neg hname, if_neg hc]
    have hpre : (withGroupH σ h name).2.pre = h.pre := by
      simp only [withGroupH, if_neg hname, if_neg hc]
    refine ⟨?_, ?_, ?_, ?_, ?_, ?_, hraeq⟩
    · intro sl _
      rw [hbytes]
    · intro sl hsl
      rw [hstrs, readSlice, readSlice, getD_append_lt σ.strs _ hsl.1]
      rfl
    · rw [hgrp]
    · intro hpos
      exact absurd hpos hc
    · rw [hstrs, hgrp, readSlice, getD_append_self]
      have hl : (readSlice σ.strs h.groups ++ [name]).length = h.groups.len + 1 := by
        simp [hglen]
      rw [← hl, List.take_length]
    · rw [hbytes, hpre]

instance {α : Type} (H : HeapOf α) (s : HSlice) : Decidable (sliceWF H s) := by
  unfold sliceWF; infer_instance

/-- C1: deriving a handler never mutates the receiver or any other handler
over the same heaps — every slice readable before `WithAttrs`/`WithGroup`
reads the same afterwards (ancestors and siblings included) — because each
proper derivation allocates fresh backing arrays for its group list and
pre-rendered byte block: the new block reads as the old block with the new
attributes' rendered bytes appended, the new group list as the old list
(with the entered name appended for `WithGroup`). -/
theorem c1_derivations_never_mutate (σ : HState) (h : HHandler)
    (attrs : List SAttr) (name : List Nat)
    (hwfp : sliceWF σ.bytes h.pre) (hwfg : sliceWF σ.strs h.groups)
    (hattrs : attrs ≠ []) (hname : name ≠ []) :
    ((∀ sl, sliceWF σ.bytes sl →
      readSlice (withAttrsH σ h attrs).1.bytes sl = readSlice σ.bytes sl) ∧
    (∀ sl, sliceWF σ.strs sl →
      readSlice (withAttrsH σ h attrs).1.strs sl = readSlice σ.strs sl) ∧
    (withAttrsH σ h attrs).2.pre.arr = σ.bytes.length ∧
    (withAttrsH σ h attrs).2.groups.arr = σ.strs.length ∧
    readSlice (withAttrsH σ h attrs).1.bytes (withAttrsH σ h attrs).2.pre =
      readSlice σ.bytes h.pre ++ attrs.flatMap
        (fun a => appendAttrB (readSlice σ.strs h.groups) h.replaceAttr
          a.key a.value) ∧
    readSlice (withAttrsH σ h attrs).1.strs (withAttrsH σ h attrs).2.groups =
      readSlice σ.strs h.groups ∧
    (withAttrsH σ h attrs).2.replaceAttr = h.replaceAttr) ∧
    ((∀ sl, sliceWF σ.bytes sl →
      readSlice (withGroupH σ h name).1.bytes sl = readSlice σ.bytes sl) ∧
    (∀ sl, sliceWF σ.strs sl →
      readSlice (withGroupH σ h name).1.strs sl = readSlice σ.strs sl) ∧
    (withGroupH σ h name).2.groups.arr = σ.strs.length ∧
    (0 < h.pre.len → (withGroupH σ h name).2.pre.arr = σ.bytes.length) ∧
    readSlice (withGroupH σ h name).1.strs (withGroupH σ h name).2.groups =
      readSlice σ.strs h.groups ++ [name] ∧
    readSlice (withGroupH σ h name).1.bytes (withGroupH σ h name).2.pre =
      readSlice σ.bytes h.pre ∧
    (withGroupH σ h name).2.replaceAttr = h.replaceAttr) ∧
    withAttrsH σ h [] = (σ, h) ∧ withGroupH σ h [] = (σ, h) :=
  ⟨withAttrsH_spec σ h attrs hwfp hwfg hattrs,
    withGroupH_spec σ h name hwfp hwfg hname,
    by simp [withAttrsH], by simp [withGroupH]⟩

def wHeap : HState := ⟨[[7, 8]], [[gostr "g0"]]⟩

def wHH : HHandler := ⟨⟨0, 1⟩, ⟨0, 2⟩, none⟩

def wAttrs1 : List SAttr := [⟨gostr "k", .vany (.u64 5)⟩]

def wGroupName : List Nat := gostr "sub"

theorem c1_derivations_never_mutate_witness :
    readSlice (withAttrsH wHeap wHH wAttrs1).1.bytes wHH.pre =
      readSlice wHeap.bytes wHH.pre ∧
    (withAttrsH wHeap wHH wAttrs1).2.pre.arr = wHeap.bytes.length ∧
    readSlice (withAttrsH wHeap wHH wAttrs1).1.bytes
        (withAttrsH wHeap wHH wAttrs1).2.pre =
      readSlice wHeap.bytes wHH.pre ++ wAttrs1.flatMap
        (fun a => appendAttrB (readSlice wHeap.strs wHH.groups)
          wHH.replaceAttr a.key a.value) ∧
    readSlice (withGroupH wHeap wHH wGroupName).1.strs
        (withGroupH wHeap wHH wGroupName).2.groups =
      readSlice wHeap.strs wHH.groups ++ [wGroupName] ∧
    readSlice (withGroupH wHeap wHH wGroupName).1.strs wHH.groups =
      readSlice wHeap.strs wHH.groups :=
  ⟨(c1_derivations_never_mutate wHeap wHH wAttrs1 wGroupName (by decide)
      (by decide) (List.cons_ne_nil _ _) (by decide)).1.1 wHH.pre (by decide),
    (c1_derivations_never_mutate wHeap wHH wAttrs1 wGroupName (by decide)
      (by decide) (List.cons_ne_nil _ _) (by decide)).1.2.2.1,
    (c1_derivations_never_mutate wHeap wHH wAttrs1 wGroupName (by decide)
      (by decide) (List.cons_ne_nil _ _) (by decide)).1.2.2.2.2.1,
    (c1_derivations_never_mutate wHeap wHH wAttrs1 wGroupName (by decide)
      (by decide) (List.cons_ne_nil _ _) (by decide)).2.1.2.2.2.2.1,
    (c1_derivations_never_mutate wHeap wHH wAttrs1 wGroupName (by decide)
      (by decide) (List.cons_ne_nil _ _) (by decide)).2.1.2.1 wHH.groups
      (by decide)⟩

end Golog
